import Mathlib

/-!
Shallow embedding of the display-formatting core of the casper-deploy-generator
repository, together with theorems settling the claims about its specification.

The embedding covers three components of the source:
  * `src/checksummed_hex.rs` — the mixed-case checksummed hexadecimal codec;
  * `src/ledger.rs` — the pagination engine (`LedgerValue`, `LedgerPageView`,
    `LedgerView`) and the `Element` record;
  * `src/parser/{deploy,auction,runtime_args}.rs` — the field extractor and
    the delegation classifier.

Conventions: bytes are `Nat` (masked with `&&& 0xf` where the source extracts
nibbles, so out-of-range values behave as their low bits); Rust strings are
Lean `String`s, with character-level work done on `String.data`; panics and
`unwrap`s of fallible code are modelled with `Except String` / `Option`.
The Blake2b digest (provided by the external casper-types crate) is passed in
as an explicit parameter wherever the source calls it.
-/

namespace DeployGen

/-! ## Checksummed hex codec (`src/checksummed_hex.rs`) -/

/-- Threshold (in input bytes) at or below which the checksum scheme applies
(`SMALL_BYTES_COUNT` in the source). -/
def SMALL_BYTES_COUNT : Nat := 75

/-- The character table `HEX_CHARS`: indices 0–15 are the lowercase hex digits,
indices 16–21 the uppercase letters, so `HEX_CHARS[10] = 'a'` and
`HEX_CHARS[16] = 'A'`. -/
def HEX_CHARS : List Char :=
  "0123456789abcdef".data ++ "ABCDEF".data

/-- `bytes_to_nibbles`: every input byte yields its high nibble then its low
nibble (the source maps offsets `[4, 0]` over each byte). -/
def bytes_to_nibbles (input : List Nat) : List Nat :=
  input.flatMap fun byte => [4, 0].map fun offset => (byte >>> offset) &&& 0x0f

/-- The i-th element of the infinite cyclic bit stream of `bytes`
(`bytes_to_bits_cycle` in the source): bytes repeat forever, each byte yields
its bits least-significant first.  `none` models the exhausted iterator that
`cycle` produces for an empty byte vector (the caller then falls back to
`true` via `unwrap_or(true)`). -/
def bits_cycle_at (bytes : List Nat) (i : Nat) : Option Bool :=
  match bytes with
  | [] => none
  | _ => some ((((bytes.getD ((i / 8) % bytes.length) 0) >>> (i % 8)) &&& 1) == 1)

/-- Loop of `encode_iter`: walks the nibble list keeping the current position
of the cyclic digest-bit stream, and returns the emitted characters together
with the final stream position (= the number of bits consumed when starting
from position 0).  Mirrors the source closure: the Rust `&&` is
short-circuiting, so `hash_bits.next()` runs only when `nibble >= 10`. -/
def encode_iter_go (hash : List Nat) : List Nat → Nat → List Char × Nat
  | [], pos => ([], pos)
  | nibble :: rest, pos =>
    if 10 ≤ nibble then
      let bit := (bits_cycle_at hash pos).getD true
      let nibble2 := if bit then nibble + 6 else nibble
      let step := encode_iter_go hash rest (pos + 1)
      (HEX_CHARS.getD nibble2 '0' :: step.1, step.2)
    else
      let step := encode_iter_go hash rest pos
      (HEX_CHARS.getD nibble '0' :: step.1, step.2)

/-- `encode_iter`: the emitted character stream, with the digest passed in
explicitly (the source computes it as `blake2b(input)` via the external
casper-types crate). -/
def encode_iter (hash : List Nat) (input : List Nat) : List Char :=
  (encode_iter_go hash (bytes_to_nibbles input) 0).1

/-- Number of bits the cyclic digest-bit stream advances while `encode_iter`
processes `input` (the final stream position, starting from 0). -/
def bits_consumed (hash : List Nat) (input : List Nat) : Nat :=
  (encode_iter_go hash (bytes_to_nibbles input) 0).2

/-- `base16::encode_lower`: plain lowercase hexadecimal, high nibble first. -/
def base16_encode_lower (input : List Nat) : List Char :=
  input.flatMap fun byte =>
    [HEX_CHARS.getD ((byte >>> 4) &&& 0x0f) '0', HEX_CHARS.getD (byte &&& 0x0f) '0']

/-- `encode`: above the small-size threshold the checksum scheme is skipped and
plain lowercase hex is emitted; otherwise the checksummed stream is used.
`hash` stands for `blake2b(input)` (external collaborator). -/
def encode (hash : List Nat) (input : List Nat) : List Char :=
  if input.length > SMALL_BYTES_COUNT then base16_encode_lower input
  else encode_iter hash input

/-! ## Elements and the pagination engine (`src/ledger.rs`) -/

/-- Layout constants from the top of `ledger.rs`. -/
def LEDGER_VIEW_NAME_COUNT : Nat := 11

/-- Per-line capacity of the top screen line. -/
def LEDGER_VIEW_TOP_COUNT : Nat := 17

/-- Per-line capacity of the bottom screen line. -/
def LEDGER_VIEW_BOTTOM_COUNT : Nat := 17

/-- `capitalize_first`: upper-cases the first character.  (The Rust
`char::to_uppercase` is modelled by `Char.toUpper`; the two agree on the
ASCII labels the program uses.) -/
def capitalize_first (s : String) : String :=
  match s.data with
  | [] => ""
  | f :: rest => String.mk (Char.toUpper f :: rest)

/-- The `Element` record: one named display field with a visibility tier. -/
structure Element where
  name : String
  value : String
  expert : Bool
deriving DecidableEq, Repr

/-- `Element::expert` constructor (named `mkExpert` because the field `expert`
already takes the source name). -/
def Element.mkExpert (name : String) (value : String) : Element :=
  { name := capitalize_first name, value := value, expert := true }

/-- `Element::regular` constructor. -/
def Element.mkRegular (name : String) (value : String) : Element :=
  { name := capitalize_first name, value := value, expert := false }

/-- Modelled from the spec: `Element::as_expert` is called from
`parser/auction.rs` but its definition is not among the sources.  Per the spec
(§4.2 step 3) the generic deploy-type fields of a recognized auction operation
are "still computed but forced to Expert visibility", so it sets the expert
flag. -/
def Element.as_expert (e : Element) : Element := { e with expert := true }

/-- `LedgerValue`: one two-line page of a field's value. -/
structure LedgerValue where
  top : List Char := []
  bottom : List Char := []
deriving DecidableEq, Repr

/-- `LedgerValue::add_char`: fill `top` to capacity, then `bottom`; `none`
models the `false` return (page full). -/
def LedgerValue.add_char (v : LedgerValue) (c : Char) : Option LedgerValue :=
  if v.top.length < LEDGER_VIEW_TOP_COUNT then some { v with top := v.top ++ [c] }
  else if v.bottom.length < LEDGER_VIEW_BOTTOM_COUNT then some { v with bottom := v.bottom ++ [c] }
  else none

/-- The `Display` impl for `LedgerValue`: top line followed by bottom line. -/
def LedgerValue.render (v : LedgerValue) : String :=
  String.mk (v.top ++ v.bottom)

/-- The character-walking loop in `LedgerPageView::from_element`: when the
current page rejects a character, push it and start a fresh page with that
character (the source asserts that adding to a fresh page succeeds, which is
the value with `top = [c]`). -/
def paginate_go : List Char → List LedgerValue → LedgerValue → List LedgerValue
  | [], values, curr => values ++ [curr]
  | c :: rest, values, curr =>
    match curr.add_char c with
    | some updated => paginate_go rest values updated
    | none => paginate_go rest (values ++ [curr]) { top := [c], bottom := [] }

/-- `LedgerPageView`: a field together with its pages. -/
structure LedgerPageView where
  name : String
  expert : Bool
  values : List LedgerValue
deriving DecidableEq, Repr

/-- `LedgerPageView::from_element`: hard failure (panic, modelled as `.error`)
when the name exceeds the label capacity; otherwise paginate the value
character by character. -/
def LedgerPageView.from_element (element : Element) : Except String LedgerPageView :=
  if element.name.length > LEDGER_VIEW_NAME_COUNT then
    .error ("Name tag can only be 11 elements. Tag: " ++ element.name)
  else
    .ok { name := element.name, expert := element.expert,
          values := paginate_go element.value.data [] {} }

/-- `LedgerPageView::to_string`: one line for a single page, otherwise one line
per page carrying a `[i/n]` page marker. -/
def LedgerPageView.toStrings (p : LedgerPageView) : List String :=
  let total_count := p.values.length
  if total_count = 1 then
    [p.name ++ " : " ++ (p.values.getD 0 {}).render]
  else
    p.values.enum.map fun iv =>
      p.name ++ " [" ++ toString (iv.1 + 1) ++ "/" ++ toString total_count ++ "] : " ++ iv.2.render

/-- `LedgerView`: the whole display, a list of per-field page views. -/
structure LedgerView where
  pages : List LedgerPageView
deriving DecidableEq, Repr

/-- The filter in `LedgerView::to_string`: regular pages always survive,
expert pages survive only in the expert view. -/
def LedgerView.visible (lv : LedgerView) (expert : Bool) : List LedgerPageView :=
  lv.pages.filter fun page => if !page.expert then true else expert

/-- `LedgerView::to_string`: enumerate the surviving page views and stitch the
index in front of each of their lines, accumulating with `extend` (modelled by
a left fold that appends each page view's block of lines). -/
def LedgerView.toLines (lv : LedgerView) (expert : Bool) : List String :=
  ((lv.visible expert).enum).foldl
    (fun output ip =>
      output ++ (ip.2.toStrings.map fun page_str => toString ip.1 ++ " | " ++ page_str))
    []

/-- Claim-side rendering (written from the specification's words, for
comparison): first flatten all surviving fields' lines, then index the lines
with a zero-based counter that increments once per emitted line. -/
def LedgerView.linesIndexedPerLine (lv : LedgerView) (expert : Bool) : List String :=
  (((lv.visible expert).map LedgerPageView.toStrings).flatten).enum.map
    fun is => toString is.1 ++ " | " ++ is.2

/-- Amended-claim-side rendering: the counter increments once per surviving
field, and all lines of one field share that field's index. -/
def LedgerView.linesIndexedPerField (lv : LedgerView) (expert : Bool) : List String :=
  (((lv.visible expert).enum).map fun ip =>
    ip.2.toStrings.map fun s => toString ip.1 ++ " | " ++ s).flatten

/-! ## Field extractor and classifier (`src/parser/`) -/

/-- Model of a `CLValue`: `asString` is `some s` exactly when the underlying
typed value is a `String` (what `into_t::<String>` would return), and
`display` is the human-readable rendering produced by the external
`cl_value_to_string` collaborator. -/
structure CLV where
  asString : Option String
  display : String
deriving DecidableEq, Repr

/-- `RuntimeArgs`: named arguments.  Names are unique by construction in the
source (`RuntimeArgs` inserts by name), so a list of pairs with lookup
semantics models it. -/
abbrev Args := List (String × CLV)

/-- `RuntimeArgs::get`: lookup by name. -/
def Args.get (args : Args) (key : String) : Option CLV :=
  (args.find? fun kv => kv.1 == key).map fun kv => kv.2

/-- Removal of a single named argument (one `BTreeMap::remove` call). -/
def Args.removeKey (args : Args) (key : String) : Args :=
  args.filter fun kv => !(kv.1 == key)

/-- Insertion step of sorting the arguments by name. -/
def insertByName (kv : String × CLV) : Args → Args
  | [] => [kv]
  | hd :: tl => if kv.1 ≤ hd.1 then kv :: hd :: tl else hd :: insertByName kv tl

/-- Sorting by argument name: models the iteration order of the
`BTreeMap<String, CLValue>` the source converts `RuntimeArgs` into. -/
def sortByName (args : Args) : Args :=
  args.foldr insertByName []

/-- Mint argument name `amount`. -/
def ARG_AMOUNT : String := "amount"

/-- Mint argument name `to`. -/
def ARG_TO : String := "to"

/-- Mint argument name `source`. -/
def ARG_SOURCE : String := "source"

/-- Mint argument name `target`. -/
def ARG_TARGET : String := "target"

/-- Mint argument name `id`. -/
def ARG_ID : String := "id"

/-- `parse_runtime_args` (`parser/runtime_args.rs`): every named argument, in
sorted-by-name (`BTreeMap`) order, becomes an `arg-n-name` / `arg-n-val` pair
of Expert elements. -/
def parse_runtime_args (ra : Args) : List Element :=
  (sortByName ra).enum.flatMap fun iv =>
    [Element.mkExpert ("arg-" ++ toString iv.1 ++ "-name") iv.2.1,
     Element.mkExpert ("arg-" ++ toString iv.1 ++ "-val") iv.2.2.display]

/-- `identity` from `parser/deploy.rs`. -/
def identity (el : String) : String := el

/-- `parse_optional_arg` (`parser/runtime_args.rs`): emit an element for the
argument when present, otherwise nothing. -/
def parse_optional_arg (args : Args) (key : String) (label : String) (expert : Bool)
    (f : String → String) : Option Element :=
  match args.get key with
  | some cl_value =>
    let value := f cl_value.display
    some (if expert then Element.mkExpert label value else Element.mkRegular label value)
  | none => none

/-- `U512::from_dec_str`: decimal digits only, value below `2 ^ 512`
(the uint crate accepts the empty string as zero and rejects overflow). -/
def from_dec_str (s : String) : Option Nat :=
  if s.data.all fun c => c.isDigit then
    let n := s.data.foldl (fun acc c => acc * 10 + (c.toNat - Char.toNat '0')) 0
    if n < 2 ^ 512 then some n else none
  else none

/-- Loop of `separate_with_spaces` (thousands crate), on the reversed digit
list: a space is inserted after every third character counted from the right,
never at the very end. -/
def sep_rev : Nat → List Char → List Char
  | _, [] => []
  | _, [c] => [c]
  | k, c :: rest =>
    if (k + 1) % 3 == 0 then c :: ' ' :: sep_rev (k + 1) rest
    else c :: sep_rev (k + 1) rest

/-- `Separable::separate_with_spaces`: group digits in threes from the right
with single spaces. -/
def separate_with_spaces (s : String) : String :=
  String.mk (sep_rev 0 s.data.reverse).reverse

/-- `format_amount` (`parser/deploy.rs`): grouped motes amount. -/
def format_amount (motes : Nat) : String :=
  separate_with_spaces (toString motes) ++ " motes"

/-- `parse_motes` (`parser/deploy.rs`): the source calls `parse_optional_arg`
with a closure that `unwrap`s `U512::from_dec_str`; the closure's panic is
hoisted here into the `.error` case, absence of the argument stays `.ok none`. -/
def parse_motes (args : Args) (ledger_label : String) : Except String (Option Element) :=
  match args.get ARG_AMOUNT with
  | none => .ok none
  | some cl_value =>
    match from_dec_str cl_value.display with
    | none => .error "from_dec_str unwrap"
    | some motes_amount => .ok (some (Element.mkRegular ledger_label (format_amount motes_amount)))

/-- `parse_fee`: the system-payment fee field. -/
def parse_fee (args : Args) : Except String (Option Element) :=
  parse_motes args "fee"

/-- `parse_amount`: the generic amount field. -/
def parse_amount (args : Args) : Except String (Option Element) :=
  parse_motes args "amount"

/-- Modelled from the spec: `parse_transfer_amount` is called from
`parse_transfer_args` but its definition is not among the sources.  Per the
spec (§4.2 step 3) the transfer's `amount` is required and rendered as
"<integer grouped with thousands-separators> motes" with Regular visibility
and the label `amount`; a required argument that is absent is fatal (§7). -/
def parse_transfer_amount (args : Args) : Except String (Option Element) :=
  match args.get ARG_AMOUNT with
  | none => .error "missing required transfer amount"
  | some cl_value =>
    match from_dec_str cl_value.display with
    | none => .error "from_dec_str unwrap"
    | some motes_amount => .ok (some (Element.mkRegular "amount" (format_amount motes_amount)))

/-- `parse_transfer_args` (`parser/runtime_args.rs`): recipient, source,
target, amount, id — each only when present, in this order. -/
def parse_transfer_args (args : Args) : Except String (List Element) := do
  let elements := (parse_optional_arg args ARG_TO "recipient" false identity).toList
  let elements := elements ++ (parse_optional_arg args ARG_SOURCE "from" true identity).toList
  let elements := elements ++ (parse_optional_arg args ARG_TARGET "target" false identity).toList
  let amount ← parse_transfer_amount args
  let elements := elements ++ amount.toList
  .ok (elements ++ (parse_optional_arg args ARG_ID "ID" true identity).toList)

/-- `ExecutableDeployItem` (external casper type): the closed set of
executable kinds.  Contract hashes are carried as their display strings. -/
inductive ExecutableDeployItem where
  | moduleBytes (module_bytes : List Nat) (args : Args)
  | storedContractByHash (hash : String) (entry_point : String) (args : Args)
  | storedContractByName (name : String) (entry_point : String) (args : Args)
  | storedVersionedContractByHash (hash : String) (version : Option Nat) (entry_point : String)
      (args : Args)
  | storedVersionedContractByName (name : String) (version : Option Nat) (entry_point : String)
      (args : Args)
  | transfer (args : Args)
deriving DecidableEq, Repr

/-- `ExecutableDeployItem::args`: the arguments of any variant. -/
def ExecutableDeployItem.args : ExecutableDeployItem → Args
  | .moduleBytes _ a => a
  | .storedContractByHash _ _ a => a
  | .storedContractByName _ _ a => a
  | .storedVersionedContractByHash _ _ _ a => a
  | .storedVersionedContractByName _ _ _ a => a
  | .transfer a => a

/-- `TxnPhase` from `ledger.rs`. -/
inductive TxnPhase where
  | payment
  | session
deriving DecidableEq, Repr

/-- `TxnPhase::is_payment`. -/
def TxnPhase.is_payment : TxnPhase → Bool
  | .payment => true
  | .session => false

/-- The `Display` impl for `TxnPhase`. -/
def TxnPhase.render : TxnPhase → String
  | .payment => "Payment"
  | .session => "Execution"

/-- `is_system_payment` (`parser/deploy.rs`): payment phase with empty module
bytes. -/
def is_system_payment (phase : TxnPhase) (module_bytes : List Nat) : Bool :=
  phase.is_payment && module_bytes.isEmpty

/-- `parse_version`: Expert version field, literal `latest` when unspecified. -/
def parse_version (version : Option Nat) : Element :=
  Element.mkExpert "version" (match version with | none => "latest" | some v => toString v)

/-- `entrypoint`: Expert entry-point field. -/
def entrypoint (entry_point : String) : Element :=
  Element.mkExpert "entry-point" entry_point

/-- `deploy_type` (`parser/deploy.rs`): the phase-label and identifier
elements, without arguments or entry points.  `digestHash` stands for the
external `casper_hashing::Digest::hash` rendering used for raw module bytes. -/
def deploy_type (digestHash : List Nat → String) (phase : TxnPhase)
    (item : ExecutableDeployItem) : List Element :=
  let phase_label := phase.render
  match item with
  | .moduleBytes module_bytes _ =>
    if is_system_payment phase module_bytes then []
    else
      [Element.mkRegular phase_label "contract",
       Element.mkRegular "Cntrct hash" (digestHash module_bytes)]
  | .storedContractByHash h _ _ =>
    [Element.mkRegular phase_label "by-hash", Element.mkRegular "address" h]
  | .storedContractByName n _ _ =>
    [Element.mkRegular phase_label "by-name", Element.mkRegular "name" n]
  | .storedVersionedContractByHash h version _ _ =>
    [Element.mkRegular phase_label "by-hash-versioned", Element.mkRegular "address" h,
     parse_version version]
  | .storedVersionedContractByName n version _ _ =>
    [Element.mkRegular phase_label "by-name-versioned", Element.mkRegular "name" n,
     parse_version version]
  | .transfer _ => []

/-- `remove_amount_arg`: drop the `amount` argument. -/
def remove_amount_arg (args : Args) : Args :=
  args.removeKey ARG_AMOUNT

/-- `remove_transfer_args`: drop the five reserved transfer argument names. -/
def remove_transfer_args (args : Args) : Args :=
  ((((args.removeKey ARG_TO).removeKey ARG_SOURCE).removeKey ARG_TARGET).removeKey
    ARG_AMOUNT).removeKey ARG_ID

/-- Entry-point name constant. -/
def DELEGATE_ENTRYPOINT : String := "delegate"

/-- Entry-point name constant. -/
def UNDELEGATE_ENTRYPOINT : String := "undelegate"

/-- Entry-point name constant. -/
def REDELEGATE_ENTRYPOINT : String := "redelegate"

/-- Required argument name constant. -/
def DELEGATOR_ARG_KEY : String := "delegator"

/-- Required argument name constant. -/
def VALIDATOR_ARG_KEY : String := "validator"

/-- Required argument name constant. -/
def NEW_VALIDATOR_ARG_KEY : String := "new_validator"

/-- `is_entrypoint` (`parser/auction.rs`): module-bytes and transfer items
carry no entry point. -/
def is_entrypoint (item : ExecutableDeployItem) (expected : String) : Bool :=
  match item with
  | .moduleBytes _ _ => false
  | .transfer _ => false
  | .storedContractByHash _ entry_point _ => entry_point == expected
  | .storedContractByName _ entry_point _ => entry_point == expected
  | .storedVersionedContractByHash _ _ entry_point _ => entry_point == expected
  | .storedVersionedContractByName _ _ entry_point _ => entry_point == expected

/-- Character-wise lowercasing (`str::to_lowercase`; the labels involved are
ASCII). -/
def str_to_lowercase (s : String) : String :=
  String.mk (s.data.map Char.toLower)

/-- `get_auction_arg`: only module-bytes items are probed for the special
`auction` string argument; `into_t::<String>`'s `expect` on a non-string value
is the `.error` case. -/
def get_auction_arg (item : ExecutableDeployItem) : Except String (Option String) :=
  match item with
  | .moduleBytes _ args =>
    match args.get "auction" with
    | some cl_value =>
      match cl_value.asString with
      | some s => .ok (some s)
      | none => .error "argument should be string"
    | none => .ok none
  | _ => .ok none

/-- `has_delegate_auction_arg`. -/
def has_delegate_auction_arg (item : ExecutableDeployItem) : Except String Bool :=
  (get_auction_arg item).map fun arg =>
    (arg.filter fun v => str_to_lowercase v == DELEGATE_ENTRYPOINT).isSome

/-- `has_undelegate_auction_arg`. -/
def has_undelegate_auction_arg (item : ExecutableDeployItem) : Except String Bool :=
  (get_auction_arg item).map fun arg =>
    (arg.filter fun v => str_to_lowercase v == UNDELEGATE_ENTRYPOINT).isSome

/-- `has_redelegate_auction_arg`. -/
def has_redelegate_auction_arg (item : ExecutableDeployItem) : Except String Bool :=
  (get_auction_arg item).map fun arg =>
    (arg.filter fun v => str_to_lowercase v == REDELEGATE_ENTRYPOINT).isSome

/-- `has_delegate_args`: delegator, validator and amount must all be present. -/
def has_delegate_args (item : ExecutableDeployItem) : Bool :=
  (item.args.get DELEGATOR_ARG_KEY).isSome && (item.args.get VALIDATOR_ARG_KEY).isSome
    && (item.args.get ARG_AMOUNT).isSome

/-- `has_undelegate_arg`: same required names as delegation. -/
def has_undelegate_arg (item : ExecutableDeployItem) : Bool :=
  (item.args.get DELEGATOR_ARG_KEY).isSome && (item.args.get VALIDATOR_ARG_KEY).isSome
    && (item.args.get ARG_AMOUNT).isSome

/-- `has_redelegate_arg`: additionally requires `new_validator`. -/
def has_redelegate_arg (item : ExecutableDeployItem) : Bool :=
  (item.args.get DELEGATOR_ARG_KEY).isSome && (item.args.get VALIDATOR_ARG_KEY).isSome
    && (item.args.get NEW_VALIDATOR_ARG_KEY).isSome && (item.args.get ARG_AMOUNT).isSome

/-- `is_delegate`: `(is_entrypoint || has_delegate_auction_arg) &&
has_delegate_args`, with the Rust short-circuit — the auction argument (whose
extraction can panic) is only inspected when the entry-point test fails. -/
def is_delegate (item : ExecutableDeployItem) : Except String Bool :=
  if is_entrypoint item DELEGATE_ENTRYPOINT then .ok (has_delegate_args item)
  else do
    let aux ← has_delegate_auction_arg item
    .ok (aux && has_delegate_args item)

/-- `is_undelegate`. -/
def is_undelegate (item : ExecutableDeployItem) : Except String Bool :=
  if is_entrypoint item UNDELEGATE_ENTRYPOINT then .ok (has_undelegate_arg item)
  else do
    let aux ← has_undelegate_auction_arg item
    .ok (aux && has_undelegate_arg item)

/-- `is_redelegate`. -/
def is_redelegate (item : ExecutableDeployItem) : Except String Bool :=
  if is_entrypoint item REDELEGATE_ENTRYPOINT then .ok (has_redelegate_arg item)
  else do
    let aux ← has_redelegate_auction_arg item
    .ok (aux && has_redelegate_arg item)

/-- `parse_delegator`. -/
def parse_delegator (args : Args) : Option Element :=
  parse_optional_arg args DELEGATOR_ARG_KEY "delegator" false identity

/-- `parse_validator`. -/
def parse_validator (args : Args) : Option Element :=
  parse_optional_arg args VALIDATOR_ARG_KEY "validator" false identity

/-- `parse_old_validator`. -/
def parse_old_validator (args : Args) : Option Element :=
  parse_optional_arg args VALIDATOR_ARG_KEY "old" false identity

/-- `parse_new_validator`. -/
def parse_new_validator (args : Args) : Option Element :=
  parse_optional_arg args NEW_VALIDATOR_ARG_KEY "new" false identity

/-- `parse_auction_item` (`parser/auction.rs`): forces the deploy-type
elements to Expert, panics (`.error`) on a transfer item, and otherwise runs
the operation's argument extractor. -/
def parse_auction_item (digestHash : List Nat → String) (method : String)
    (item : ExecutableDeployItem) (argsParser : Args → Except String (List Element)) :
    Except String (List Element) :=
  let elements := (deploy_type digestHash TxnPhase.session item).map Element.as_expert
  match item with
  | .transfer _ => .error ("unexpected type for " ++ method)
  | .moduleBytes _ args => do
    let parsed ← argsParser args
    .ok (elements ++ parsed)
  | .storedContractByHash _ _ args => do
    let parsed ← argsParser args
    .ok (elements ++ parsed)
  | .storedContractByName _ _ args => do
    let parsed ← argsParser args
    .ok (elements ++ parsed)
  | .storedVersionedContractByHash _ _ _ args => do
    let parsed ← argsParser args
    .ok (elements ++ parsed)
  | .storedVersionedContractByName _ _ _ args => do
    let parsed ← argsParser args
    .ok (elements ++ parsed)

/-- `parse_delegation`: delegator, validator, amount. -/
def parse_delegation (digestHash : List Nat → String) (item : ExecutableDeployItem) :
    Except String (List Element) :=
  parse_auction_item digestHash "delegate" item fun args => do
    let elements := (parse_delegator args).toList
    let elements := elements ++ (parse_validator args).toList
    let amount ← parse_amount args
    .ok (elements ++ amount.toList)

/-- `parse_undelegation`: delegator, validator, amount. -/
def parse_undelegation (digestHash : List Nat → String) (item : ExecutableDeployItem) :
    Except String (List Element) :=
  parse_auction_item digestHash "undelegate" item fun args => do
    let elements := (parse_delegator args).toList
    let elements := elements ++ (parse_validator args).toList
    let amount ← parse_amount args
    .ok (elements ++ amount.toList)

/-- `parse_redelegation`: delegator, old validator, new validator, amount. -/
def parse_redelegation (digestHash : List Nat → String) (item : ExecutableDeployItem) :
    Except String (List Element) :=
  parse_auction_item digestHash "redelegate" item fun args => do
    let elements := (parse_delegator args).toList
    let elements := elements ++ (parse_old_validator args).toList
    let elements := elements ++ (parse_new_validator args).toList
    let amount ← parse_amount args
    .ok (elements ++ amount.toList)

/-- `parse_phase` (`parser/deploy.rs`): the ordered classification — delegate,
undelegate, redelegate, otherwise the generic per-kind extraction. -/
def parse_phase (digestHash : List Nat → String) (item : ExecutableDeployItem)
    (phase : TxnPhase) : Except String (List Element) := do
  let isD ← is_delegate item
  if isD then parse_delegation digestHash item
  else do
    let isU ← is_undelegate item
    if isU then parse_undelegation digestHash item
    else do
      let isR ← is_redelegate item
      if isR then parse_redelegation digestHash item
      else
        let elements := deploy_type digestHash phase item
        match item with
        | .moduleBytes module_bytes args =>
          if is_system_payment phase module_bytes then do
            let fee ← parse_fee args
            .ok (elements ++ fee.toList ++ parse_runtime_args (remove_amount_arg args))
          else do
            let amount ← parse_amount args
            .ok (elements ++ amount.toList ++ parse_runtime_args (remove_amount_arg args))
        | .storedContractByHash _ entry_point args => do
          let amount ← parse_amount args
          .ok (elements ++ [entrypoint entry_point] ++ amount.toList
            ++ parse_runtime_args (remove_amount_arg args))
        | .storedContractByName _ entry_point args => do
          let amount ← parse_amount args
          .ok (elements ++ [entrypoint entry_point] ++ amount.toList
            ++ parse_runtime_args (remove_amount_arg args))
        | .storedVersionedContractByHash _ _ entry_point args => do
          let amount ← parse_amount args
          .ok (elements ++ [entrypoint entry_point] ++ amount.toList
            ++ parse_runtime_args (remove_amount_arg args))
        | .storedVersionedContractByName _ _ entry_point args => do
          let amount ← parse_amount args
          .ok (elements ++ [entrypoint entry_point] ++ amount.toList
            ++ parse_runtime_args (remove_amount_arg args))
        | .transfer args => do
          let transfer_elements ← parse_transfer_args args
          .ok (elements ++ transfer_elements ++ parse_runtime_args (remove_transfer_args args))

/-! ## Claim-side definitions used by individual claims -/

/-- The literal entry-point name of an item, when it has one. -/
def itemEntryPointName : ExecutableDeployItem → Option String
  | .moduleBytes _ _ => none
  | .transfer _ => none
  | .storedContractByHash _ entry_point _ => some entry_point
  | .storedContractByName _ entry_point _ => some entry_point
  | .storedVersionedContractByHash _ _ entry_point _ => some entry_point
  | .storedVersionedContractByName _ _ entry_point _ => some entry_point

/-- Claim-side signal: the item's literal entry-point name equals the
operation name. -/
def claimEntrySignal (item : ExecutableDeployItem) (op : String) : Bool :=
  decide (itemEntryPointName item = some op)

/-- Claim-side signal: the item is a module-bytes item whose string argument
named `auction` equals the operation name case-insensitively. -/
def claimAuctionSignal (item : ExecutableDeployItem) (op : String) : Bool :=
  match item with
  | .moduleBytes _ args =>
    match args.get "auction" with
    | some cl_value =>
      match cl_value.asString with
      | some s => decide (str_to_lowercase s = op)
      | none => false
    | none => false
  | _ => false

/-- Claim-side confirmation: the arguments contain all the given names. -/
def claimHasRequired (item : ExecutableDeployItem) (names : List String) : Bool :=
  names.all fun n => (item.args.get n).isSome

/-- Claim-side delegate classifier, written from the claim's words. -/
def spec_is_delegate (item : ExecutableDeployItem) : Bool :=
  (claimEntrySignal item "delegate" || claimAuctionSignal item "delegate")
    && claimHasRequired item ["delegator", "validator", "amount"]

/-- Claim-side undelegate classifier. -/
def spec_is_undelegate (item : ExecutableDeployItem) : Bool :=
  (claimEntrySignal item "undelegate" || claimAuctionSignal item "undelegate")
    && claimHasRequired item ["delegator", "validator", "amount"]

/-- Claim-side redelegate classifier. -/
def spec_is_redelegate (item : ExecutableDeployItem) : Bool :=
  (claimEntrySignal item "redelegate" || claimAuctionSignal item "redelegate")
    && claimHasRequired item ["delegator", "validator", "new_validator", "amount"]

/-- The five reserved transfer argument names. -/
def reservedTransferNames : List String := ["to", "source", "target", "amount", "id"]

/-- Claim-side transfer field list (written from the claim's words): optional
recipient, optional source, target, grouped-motes amount, optional id, then
the leftover arguments — the reserved names removed first — as paired Expert
fields in sorted-name order. -/
def spec_transfer_fields (args : Args) (motes : Nat) : List Element :=
  ((args.get "to").map fun v => Element.mkRegular "recipient" v.display).toList
    ++ ((args.get "source").map fun v => Element.mkExpert "from" v.display).toList
    ++ ((args.get "target").map fun v => Element.mkRegular "target" v.display).toList
    ++ [Element.mkRegular "amount" (separate_with_spaces (toString motes) ++ " motes")]
    ++ ((args.get "id").map fun v => Element.mkExpert "ID" v.display).toList
    ++ ((sortByName (args.filter fun kv => !(reservedTransferNames.contains kv.1))).enum.flatMap
      fun iv =>
        [Element.mkExpert ("arg-" ++ toString iv.1 ++ "-name") iv.2.1,
         Element.mkExpert ("arg-" ++ toString iv.1 ++ "-val") iv.2.2.display])

/-- Concatenated content of a list of pages, top line then bottom line of
each, in order. -/
def pagesContent (values : List LedgerValue) : List Char :=
  (values.map fun v => v.top ++ v.bottom).flatten

/-- Number of letter nibbles (numeric value at least 10) among the nibbles of
the input. -/
def letterNibbleCount (input : List Nat) : Nat :=
  ((bytes_to_nibbles input).filter fun n => 10 ≤ n).length

/-- Boolean check that every digit nibble (value below 10) of the input is
rendered as its plain hexadecimal digit character, independent of the digest. -/
def digit_nibbles_rendered_plain (hash : List Nat) (input : List Nat) : Bool :=
  (List.range (bytes_to_nibbles input).length).all fun j =>
    decide (10 ≤ (bytes_to_nibbles input).getD j 0) ||
      ((encode_iter hash input).getD j '0' == HEX_CHARS.getD ((bytes_to_nibbles input).getD j 0) '0')

/-- Invariant maintained by the pagination loop for the page under
construction: both lines within capacity, and the bottom line only receives
characters once the top line is full. -/
def pageInv (v : LedgerValue) : Prop :=
  v.top.length ≤ LEDGER_VIEW_TOP_COUNT ∧ v.bottom.length ≤ LEDGER_VIEW_BOTTOM_COUNT ∧
    (v.bottom = [] ∨ v.top.length = LEDGER_VIEW_TOP_COUNT)

/-- Whether a fallible computation succeeded (panics are modelled as `.error`). -/
def exceptIsOk {ε α : Type} : Except ε α → Bool
  | .ok _ => true
  | .error _ => false

instance {ε α : Type} [DecidableEq ε] [DecidableEq α] : DecidableEq (Except ε α) := fun a b =>
  match a, b with
  | .error e1, .error e2 =>
    if h : e1 = e2 then .isTrue (by rw [h])
    else .isFalse (by intro hc; injection hc; exact h (by assumption))
  | .error _, .ok _ => .isFalse (by intro hc; exact Except.noConfusion hc)
  | .ok _, .error _ => .isFalse (by intro hc; exact Except.noConfusion hc)
  | .ok v1, .ok v2 =>
    if h : v1 = v2 then .isTrue (by rw [h])
    else .isFalse (by intro hc; injection hc; exact h (by assumption))

/-! ## Theorems

Helper lemmas are shared; each claim is settled by exactly one theorem
(plus, where applicable, a counterexample and a witness). -/

lemma encode_go_bits (hash : List Nat) :
    ∀ (nibs : List Nat) (pos : Nat),
      (encode_iter_go hash nibs pos).2 = pos + (nibs.filter fun n => 10 ≤ n).length := by
  intro nibs
  induction nibs with
  | nil => intro pos; simp [encode_iter_go]
  | cons n rest ih =>
    intro pos
    by_cases hn : 10 ≤ n
    · have hf : (List.filter (fun m => decide (10 ≤ m)) (n :: rest)).length =
          (List.filter (fun m => decide (10 ≤ m)) rest).length + 1 := by
        simp [List.filter_cons, hn]
      simp only [encode_iter_go, if_pos hn]
      rw [ih, hf]
      omega
    · have hf : List.filter (fun m => decide (10 ≤ m)) (n :: rest) =
          List.filter (fun m => decide (10 ≤ m)) rest := by
        simp [List.filter_cons, hn]
      simp only [encode_iter_go, if_neg hn]
      rw [ih, hf]

lemma encode_go_length (hash : List Nat) :
    ∀ (nibs : List Nat) (pos : Nat),
      (encode_iter_go hash nibs pos).1.length = nibs.length := by
  intro nibs
  induction nibs with
  | nil => intro pos; simp [encode_iter_go]
  | cons n rest ih =>
    intro pos
    by_cases hn : 10 ≤ n
    · simp [encode_iter_go, if_pos hn, ih]
    · simp [encode_iter_go, if_neg hn, ih]

lemma encode_go_digit (hash : List Nat) :
    ∀ (nibs : List Nat) (pos j : Nat), j < nibs.length → nibs.getD j 0 < 10 →
      (encode_iter_go hash nibs pos).1.getD j '0' = HEX_CHARS.getD (nibs.getD j 0) '0' := by
  intro nibs
  induction nibs with
  | nil => intro pos j hj; simp at hj
  | cons n rest ih =>
    intro pos j hj hd
    by_cases hn : 10 ≤ n
    · cases j with
      | zero => simp only [List.getD_cons_zero] at hd; omega
      | succ k =>
        simp only [encode_iter_go, if_pos hn, List.getD_cons_succ] at hd ⊢
        exact ih (pos + 1) k (by simpa using Nat.lt_of_succ_lt_succ hj) hd
    · cases j with
      | zero => simp [encode_iter_go, if_neg hn]
      | succ k =>
        simp only [encode_iter_go, if_neg hn, List.getD_cons_succ] at hd ⊢
        exact ih pos k (by simpa using Nat.lt_of_succ_lt_succ hj) hd

/-- C1 (counterexample): the input `[0x00]` is below the checksum threshold,
yet the digest-bit stream does not advance by one bit per nibble: its two
digit nibbles consume no bits at all.  The digest passed is the Blake2b-256
hash of the single zero byte, exactly what the source would feed the stream. -/
theorem c1_counterexample :
    [(0 : Nat)].length ≤ SMALL_BYTES_COUNT ∧
      bits_consumed
        [3, 23, 10, 46, 117, 151, 183, 183, 227, 216, 76, 5, 57, 29, 19, 154,
         98, 177, 87, 231, 135, 134, 216, 192, 130, 242, 157, 207, 76, 17, 19, 20]
        [0] ≠ 2 * [(0 : Nat)].length := by
  decide

/-- C1 (amended): for every input at or below the 75-byte threshold and every
digest, the cyclic digest-bit stream advances by exactly one bit per LETTER
nibble (value at least 10) — digit nibbles consume no bit — and every digit
nibble is rendered unchanged as its plain hexadecimal digit character. -/
theorem c1_bit_stream_advances_per_letter_nibble (hash input : List Nat)
    (h : input.length ≤ SMALL_BYTES_COUNT) :
    bits_consumed hash input = letterNibbleCount input ∧
      (encode_iter hash input).length = (bytes_to_nibbles input).length ∧
      digit_nibbles_rendered_plain hash input = true := by
  refine ⟨?_, ?_, ?_⟩
  · unfold bits_consumed letterNibbleCount
    rw [encode_go_bits, Nat.zero_add]
  · unfold encode_iter
    rw [encode_go_length]
  · unfold digit_nibbles_rendered_plain
    rw [List.all_eq_true]
    intro j hj
    rw [List.mem_range] at hj
    rw [Bool.or_eq_true]
    by_cases hd : 10 ≤ (bytes_to_nibbles input).getD j 0
    · exact Or.inl (decide_eq_true hd)
    · refine Or.inr ?_
      rw [beq_iff_eq]
      exact encode_go_digit hash (bytes_to_nibbles input) 0 j hj (by omega)

/-- Witness for the amended C1 theorem at the byte `0x0a` (one digit nibble,
one letter nibble) and a concrete digest. -/
theorem c1_witness :
    bits_consumed [3, 23, 10, 46] [10] = letterNibbleCount [10] ∧
      (encode_iter [3, 23, 10, 46] [10]).length = (bytes_to_nibbles [10]).length ∧
      digit_nibbles_rendered_plain [3, 23, 10, 46] [10] = true :=
  c1_bit_stream_advances_per_letter_nibble [3, 23, 10, 46] [10] (by decide)

lemma getD_hex_lower (k : Nat) (hk : k ≤ 15) : (HEX_CHARS.getD k '0').isUpper = false := by
  interval_cases k <;> decide

/-- C5 (confirmed): for every input strictly longer than 75 bytes, `encode`
returns the plain lowercase hexadecimal encoding, which contains no uppercase
letters at all. -/
theorem c5_large_inputs_plain_lowercase (hash input : List Nat)
    (h : SMALL_BYTES_COUNT < input.length) :
    encode hash input = base16_encode_lower input ∧
      ((encode hash input).all fun c => !c.isUpper) = true := by
  have henc : encode hash input = base16_encode_lower input := by
    unfold encode
    rw [if_pos h]
  refine ⟨henc, ?_⟩
  rw [henc, List.all_eq_true]
  intro c hc
  unfold base16_encode_lower at hc
  rw [List.mem_flatMap] at hc
  obtain ⟨b, hb, hc⟩ := hc
  have h1 : (b >>> 4) &&& 0x0f ≤ 15 := Nat.and_le_right
  have h2 : b &&& 0x0f ≤ 15 := Nat.and_le_right
  simp only [List.mem_cons, List.mem_singleton, List.not_mem_nil, or_false] at hc
  rcases hc with hc | hc
  · rw [hc, Bool.not_eq_true']
    exact getD_hex_lower _ h1
  · rw [hc, Bool.not_eq_true']
    exact getD_hex_lower _ h2

/-- Witness for C5 at a concrete 76-byte input. -/
theorem c5_witness :
    encode [] (List.replicate 76 0) = base16_encode_lower (List.replicate 76 0) ∧
      ((encode [] (List.replicate 76 0)).all fun c => !c.isUpper) = true :=
  c5_large_inputs_plain_lowercase [] (List.replicate 76 0) (by decide)

lemma add_char_cases (v : LedgerValue) (c : Char) :
    (v.top.length < 17 ∧ v.add_char c = some { v with top := v.top ++ [c] }) ∨
      (¬ v.top.length < 17 ∧ v.bottom.length < 17 ∧
        v.add_char c = some { v with bottom := v.bottom ++ [c] }) ∨
      (¬ v.top.length < 17 ∧ ¬ v.bottom.length < 17 ∧ v.add_char c = none) := by
  unfold LedgerValue.add_char LEDGER_VIEW_TOP_COUNT LEDGER_VIEW_BOTTOM_COUNT
  split_ifs with h1 h2
  · exact Or.inl ⟨h1, rfl⟩
  · exact Or.inr (Or.inl ⟨h1, h2, rfl⟩)
  · exact Or.inr (Or.inr ⟨h1, h2, rfl⟩)

lemma paginate_content (cs : List Char) :
    ∀ (values : List LedgerValue) (curr : LedgerValue), pageInv curr →
      pagesContent (paginate_go cs values curr) =
        pagesContent values ++ (curr.top ++ curr.bottom) ++ cs := by
  induction cs with
  | nil =>
    intro values curr _
    unfold paginate_go pagesContent
    simp
  | cons c rest ih =>
    intro values curr hinv
    obtain ⟨htop, hbot, hdisj⟩ := hinv
    simp only [LEDGER_VIEW_TOP_COUNT, LEDGER_VIEW_BOTTOM_COUNT] at htop hbot hdisj
    rcases add_char_cases curr c with ⟨h1, heq⟩ | ⟨h1, h2, heq⟩ | ⟨h1, h2, heq⟩
    · have hpg : paginate_go (c :: rest) values curr =
          paginate_go rest values { curr with top := curr.top ++ [c] } := by
        simp only [paginate_go, heq]
      have hb : curr.bottom = [] := by
        rcases hdisj with hb | hfull
        · exact hb
        · omega
      rw [hpg, ih values { curr with top := curr.top ++ [c] }
        ⟨by simp only [LEDGER_VIEW_TOP_COUNT, List.length_append, List.length_singleton]; omega,
          hbot, Or.inl hb⟩]
      simp [hb, List.append_assoc]
    · have hpg : paginate_go (c :: rest) values curr =
          paginate_go rest values { curr with bottom := curr.bottom ++ [c] } := by
        simp only [paginate_go, heq]
      have ht17 : curr.top.length = LEDGER_VIEW_TOP_COUNT := by
        simp only [LEDGER_VIEW_TOP_COUNT]
        omega
      rw [hpg, ih values { curr with bottom := curr.bottom ++ [c] }
        ⟨htop, by
          simp only [LEDGER_VIEW_BOTTOM_COUNT, List.length_append, List.length_singleton]; omega,
          Or.inr ht17⟩]
      simp [List.append_assoc]
    · have hpg : paginate_go (c :: rest) values curr =
          paginate_go rest (values ++ [curr]) { top := [c], bottom := [] } := by
        simp only [paginate_go, heq]
      rw [hpg, ih (values ++ [curr]) { top := [c], bottom := [] }
        ⟨by simp [LEDGER_VIEW_TOP_COUNT], by simp [LEDGER_VIEW_BOTTOM_COUNT], Or.inl rfl⟩]
      unfold pagesContent
      simp [List.append_assoc]

lemma paginate_count (cs : List Char) :
    ∀ (values : List LedgerValue) (curr : LedgerValue),
      curr.top.length ≤ 17 → curr.bottom.length ≤ 17 →
      (curr.bottom = [] ∨ curr.top.length = 17) →
      (paginate_go cs values curr).length =
        values.length + ((curr.top.length + curr.bottom.length + cs.length - 1) / 34 + 1) := by
  induction cs with
  | nil =>
    intro values curr htop hbot _
    unfold paginate_go
    simp only [List.length_append, List.length_singleton, List.length_nil]
    omega
  | cons c rest ih =>
    intro values curr htop hbot hdisj
    rcases add_char_cases curr c with ⟨h1, heq⟩ | ⟨h1, h2, heq⟩ | ⟨h1, h2, heq⟩
    · have hpg : paginate_go (c :: rest) values curr =
          paginate_go rest values { curr with top := curr.top ++ [c] } := by
        simp only [paginate_go, heq]
      have hb : curr.bottom = [] := by
        rcases hdisj with hb | hfull
        · exact hb
        · omega
      rw [hpg, ih values { curr with top := curr.top ++ [c] }
        (by simp only [List.length_append, List.length_singleton]; omega) hbot (Or.inl hb)]
      simp only [List.length_append, List.length_singleton, List.length_cons, List.length_nil]
      omega
    · have hpg : paginate_go (c :: rest) values curr =
          paginate_go rest values { curr with bottom := curr.bottom ++ [c] } := by
        simp only [paginate_go, heq]
      have ht17 : curr.top.length = 17 := by omega
      rw [hpg, ih values { curr with bottom := curr.bottom ++ [c] } htop
        (by simp only [List.length_append, List.length_singleton]; omega) (Or.inr ht17)]
      simp only [List.length_append, List.length_singleton, List.length_cons, List.length_nil]
      omega
    · have hpg : paginate_go (c :: rest) values curr =
          paginate_go rest (values ++ [curr]) { top := [c], bottom := [] } := by
        simp only [paginate_go, heq]
      rw [hpg, ih (values ++ [curr]) { top := [c], bottom := [] } (by simp) (by simp)
        (Or.inl rfl)]
      simp only [List.length_append, List.length_singleton, List.length_cons, List.length_nil]
      omega

lemma paginate_full (cs : List Char) :
    ∀ (values : List LedgerValue) (curr : LedgerValue),
      curr.top.length ≤ 17 → curr.bottom.length ≤ 17 →
      (∀ v ∈ values, v.top.length = 17 ∧ v.bottom.length = 17) →
      ∀ v ∈ (paginate_go cs values curr).dropLast, v.top.length = 17 ∧ v.bottom.length = 17 := by
  induction cs with
  | nil =>
    intro values curr _ _ hfull
    unfold paginate_go
    intro v hv
    rw [List.dropLast_concat] at hv
    exact hfull v hv
  | cons c rest ih =>
    intro values curr htop hbot hfull
    rcases add_char_cases curr c with ⟨h1, heq⟩ | ⟨h1, h2, heq⟩ | ⟨h1, h2, heq⟩
    · have hpg : paginate_go (c :: rest) values curr =
          paginate_go rest values { curr with top := curr.top ++ [c] } := by
        simp only [paginate_go, heq]
      rw [hpg]
      exact ih values { curr with top := curr.top ++ [c] }
        (by simp only [List.length_append, List.length_singleton]; omega) hbot hfull
    · have hpg : paginate_go (c :: rest) values curr =
          paginate_go rest values { curr with bottom := curr.bottom ++ [c] } := by
        simp only [paginate_go, heq]
      rw [hpg]
      exact ih values { curr with bottom := curr.bottom ++ [c] } htop
        (by simp only [List.length_append, List.length_singleton]; omega) hfull
    · have hpg : paginate_go (c :: rest) values curr =
          paginate_go rest (values ++ [curr]) { top := [c], bottom := [] } := by
        simp only [paginate_go, heq]
      rw [hpg]
      refine ih (values ++ [curr]) { top := [c], bottom := [] } (by simp) (by simp) ?_
      intro v hv
      rcases List.mem_append.mp hv with hv | hv
      · exact hfull v hv
      · rw [List.mem_singleton] at hv
        subst hv
        omega

/-- C3 (confirmed): concatenating top then bottom across all pages of a field,
in order, reconstructs the field's value exactly, and an empty value yields
exactly one empty page. -/
theorem c3_lossless_reassembly (element : Element) (pv : LedgerPageView)
    (h : LedgerPageView.from_element element = .ok pv) :
    pagesContent pv.values = element.value.data ∧
      (element.value = "" → pv.values = [{ top := [], bottom := [] }]) := by
  unfold LedgerPageView.from_element at h
  split_ifs at h with hname
  cases h
  constructor
  · show pagesContent (paginate_go element.value.data [] { top := [], bottom := [] }) =
      element.value.data
    rw [paginate_content element.value.data [] { top := [], bottom := [] }
      ⟨by decide, by decide, Or.inl rfl⟩]
    unfold pagesContent
    simp
  · intro hempty
    show paginate_go element.value.data [] { top := [], bottom := [] } =
      [{ top := [], bottom := [] }]
    rw [hempty]
    rfl

/-- Witness for C3 at an empty-valued field. -/
theorem c3_witness :
    pagesContent (LedgerPageView.mk "A" false [LedgerValue.mk [] []]).values =
        (Element.mk "A" "" false).value.data ∧
      ((Element.mk "A" "" false).value = "" →
        (LedgerPageView.mk "A" false [LedgerValue.mk [] []]).values =
          [{ top := [], bottom := [] }]) :=
  c3_lossless_reassembly ⟨"A", "", false⟩ ⟨"A", false, [LedgerValue.mk [] []]⟩ (by decide)

/-- C10 (confirmed): every page except the last is filled to exactly 17 + 17
characters, and the number of pages for a value of length L is
`max 1 (ceil (L / 34))`. -/
theorem c10_page_count (element : Element) (pv : LedgerPageView)
    (h : LedgerPageView.from_element element = .ok pv) :
    (pv.values.dropLast.all fun v =>
        (v.top.length == LEDGER_VIEW_TOP_COUNT) && (v.bottom.length == LEDGER_VIEW_BOTTOM_COUNT))
        = true ∧
      pv.values.length = max 1 ((element.value.data.length + 33) / 34) := by
  unfold LedgerPageView.from_element at h
  split_ifs at h with hname
  cases h
  constructor
  · show ((paginate_go element.value.data [] { top := [], bottom := [] }).dropLast.all fun v =>
      (v.top.length == LEDGER_VIEW_TOP_COUNT) && (v.bottom.length == LEDGER_VIEW_BOTTOM_COUNT))
        = true
    rw [List.all_eq_true]
    intro v hv
    have hfv := paginate_full element.value.data [] { top := [], bottom := [] } (by decide)
      (by decide) (by intro v hv; simp at hv) v hv
    simp only [LEDGER_VIEW_TOP_COUNT, LEDGER_VIEW_BOTTOM_COUNT]
    rw [Bool.and_eq_true, beq_iff_eq, beq_iff_eq]
    exact hfv
  · show (paginate_go element.value.data [] { top := [], bottom := [] }).length =
      max 1 ((element.value.data.length + 33) / 34)
    rw [paginate_count element.value.data [] { top := [], bottom := [] } (by decide) (by decide)
      (Or.inl rfl)]
    simp only [List.length_nil]
    omega

/-- Witness for C10 at a two-character value (a single partially-filled page). -/
theorem c10_witness :
    ((LedgerPageView.mk "A" false [LedgerValue.mk ['a', 'b'] []]).values.dropLast.all fun v =>
        (v.top.length == LEDGER_VIEW_TOP_COUNT) && (v.bottom.length == LEDGER_VIEW_BOTTOM_COUNT))
        = true ∧
      (LedgerPageView.mk "A" false [LedgerValue.mk ['a', 'b'] []]).values.length =
        max 1 (((Element.mk "A" "ab" false).value.data.length + 33) / 34) :=
  c10_page_count ⟨"A", "ab", false⟩ ⟨"A", false, [LedgerValue.mk ['a', 'b'] []]⟩ (by decide)

/-- C6 (confirmed): page-view construction fails hard for a field whose name
exceeds the 11-character label capacity, and succeeds at exactly 11. -/
theorem c6_name_capacity (e1 e2 : Element)
    (hlong : LEDGER_VIEW_NAME_COUNT < e1.name.length)
    (hok : e2.name.length = LEDGER_VIEW_NAME_COUNT) :
    exceptIsOk (LedgerPageView.from_element e1) = false ∧
      exceptIsOk (LedgerPageView.from_element e2) = true := by
  constructor
  · unfold LedgerPageView.from_element
    rw [if_pos hlong]
    rfl
  · unfold LedgerPageView.from_element
    rw [if_neg (by rw [hok]; exact lt_irrefl _)]
    rfl

/-- Witness for C6 at a 12-character and an 11-character label. -/
theorem c6_witness :
    exceptIsOk (LedgerPageView.from_element ⟨"twelvechars!", "", false⟩) = false ∧
      exceptIsOk (LedgerPageView.from_element ⟨"elevenchars", "", false⟩) = true :=
  c6_name_capacity ⟨"twelvechars!", "", false⟩ ⟨"elevenchars", "", false⟩ (by decide) (by decide)

lemma foldl_append_blocks {α β : Type} (f : α → List β) :
    ∀ (l : List α) (init : List β),
      l.foldl (fun output a => output ++ f a) init = init ++ (l.map f).flatten := by
  intro l
  induction l with
  | nil => intro init; simp
  | cons hd tl ih =>
    intro init
    simp only [List.foldl_cons, List.map_cons, List.flatten_cons, ih]
    rw [List.append_assoc]

/-- C2 (counterexample): a regular field paginated into two pages produces two
lines carrying the SAME index 0, not two consecutive distinct indices as the
claim states; the per-emitted-line indexing the claim describes differs from
`LedgerView.toLines` on this view. -/
theorem c2_counterexample :
    (LedgerView.mk [⟨"To", false,
        [⟨List.replicate 17 '0', List.replicate 17 '1'⟩, ⟨['x'], []⟩]⟩]).toLines false ≠
      (LedgerView.mk [⟨"To", false,
        [⟨List.replicate 17 '0', List.replicate 17 '1'⟩, ⟨['x'], []⟩]⟩]).linesIndexedPerLine
        false := by
  decide

/-- C2 (amended): for every ledger view and each visibility view, the
zero-based index counter increments once per surviving FIELD, so all N lines
of a field paginated into N pages share that field's single index. -/
theorem c2_index_increments_per_field (lv : LedgerView) (expert : Bool) :
    lv.toLines expert = lv.linesIndexedPerField expert := by
  unfold LedgerView.toLines LedgerView.linesIndexedPerField
  rw [foldl_append_blocks]
  simp

@[simp] lemma exceptMapOkEq {msg val out : Type} (g : val → out) (y : val) :
    Except.map g (Except.ok y : Except msg val) = Except.ok (g y) := rfl

@[simp] lemma exceptMapErrorEq {msg val out : Type} (g : val → out) (m : msg) :
    Except.map g (Except.error m : Except msg val) = Except.error m := rfl

@[simp] lemma exceptBindOkEq {msg val out : Type} (y : val) (g : val → Except msg out) :
    Except.ok y >>= g = g y := rfl

@[simp] lemma exceptBindErrorEq {msg val out : Type} (m : msg) (g : val → Except msg out) :
    (Except.error m : Except msg val) >>= g = Except.error m := rfl

lemma parse_phase_transfer (digestHash : List Nat → String) (args : Args) (phase : TxnPhase) :
    parse_phase digestHash (.transfer args) phase =
      (do
        let transfer_elements ← parse_transfer_args args
        Except.ok (transfer_elements ++ parse_runtime_args (remove_transfer_args args))) := rfl

/-- C9 (confirmed): no delegation classifier holds on a native-transfer item,
so `parse_phase` routes every transfer through the generic transfer
extraction and never reaches the loud-failure branch of the auction
extractor. -/
theorem c9_transfer_not_delegation (digestHash : List Nat → String) (args : Args)
    (phase : TxnPhase) :
    is_delegate (.transfer args) = .ok false ∧
      is_undelegate (.transfer args) = .ok false ∧
      is_redelegate (.transfer args) = .ok false ∧
      parse_phase digestHash (.transfer args) phase =
        (do
          let transfer_elements ← parse_transfer_args args
          Except.ok (transfer_elements ++ parse_runtime_args (remove_transfer_args args))) :=
  ⟨rfl, rfl, rfl, rfl⟩

/-- C7 (counterexample): the repository's own `system_payment::invalid` test
fixture — a payment-phase module-bytes item with empty bytes whose only
argument is named `paying` — does NOT abort the render pass: `parse_phase`
succeeds and simply emits the leftover-argument pair, with no fee field. -/
theorem c7_counterexample :
    parse_phase (fun _ => "") (.moduleBytes [] [("paying", CLV.mk none "1000000000")])
        .payment =
      .ok [Element.mkExpert "arg-0-name" "paying",
        Element.mkExpert "arg-0-val" "1000000000"] := by
  rfl

/-- C7 (amended): for a system payment whose `amount` argument is absent (and
with no `auction` argument), `parse_fee` yields no element and the render
pass continues, returning the remaining paired argument fields without any
fee field and without aborting. -/
theorem c7_missing_amount_omits_fee (digestHash : List Nat → String) (args : Args)
    (hamt : args.get ARG_AMOUNT = none) (hauc : args.get "auction" = none) :
    parse_fee args = .ok none ∧
      parse_phase digestHash (.moduleBytes [] args) .payment =
        .ok (parse_runtime_args (remove_amount_arg args)) := by
  have hfee : parse_fee args = .ok none := by
    unfold parse_fee parse_motes
    rw [hamt]
  have hga : get_auction_arg (.moduleBytes [] args) = .ok none := by
    simp [get_auction_arg, hauc]
  have hd : is_delegate (.moduleBytes [] args) = .ok false := by
    unfold is_delegate has_delegate_auction_arg
    simp [is_entrypoint, hga]
  have hu : is_undelegate (.moduleBytes [] args) = .ok false := by
    unfold is_undelegate has_undelegate_auction_arg
    simp [is_entrypoint, hga]
  have hr : is_redelegate (.moduleBytes [] args) = .ok false := by
    unfold is_redelegate has_redelegate_auction_arg
    simp [is_entrypoint, hga]
  refine ⟨hfee, ?_⟩
  unfold parse_phase
  rw [hd]
  simp only [exceptBindOkEq, Bool.false_eq_true, if_false]
  rw [hu]
  simp only [exceptBindOkEq, Bool.false_eq_true, if_false]
  rw [hr]
  simp only [exceptBindOkEq, Bool.false_eq_true, if_false]
  simp [deploy_type, is_system_payment, TxnPhase.is_payment, hfee]

/-- Witness for the amended C7 theorem at the repository's own invalid
system-payment fixture. -/
theorem c7_missing_amount_witness :
    parse_fee [("paying", CLV.mk none "1000000000")] = .ok none ∧
      parse_phase (fun _ => "") (.moduleBytes [] [("paying", CLV.mk none "1000000000")])
          .payment =
        .ok (parse_runtime_args (remove_amount_arg [("paying", CLV.mk none "1000000000")])) :=
  c7_missing_amount_omits_fee (fun _ => "") [("paying", CLV.mk none "1000000000")] (by decide)
    (by decide)

lemma claim_required_delegate (item : ExecutableDeployItem) :
    claimHasRequired item ["delegator", "validator", "amount"] = has_delegate_args item := by
  unfold claimHasRequired has_delegate_args DELEGATOR_ARG_KEY VALIDATOR_ARG_KEY ARG_AMOUNT
  simp [Bool.and_assoc]

lemma claim_required_undelegate (item : ExecutableDeployItem) :
    claimHasRequired item ["delegator", "validator", "amount"] = has_undelegate_arg item := by
  unfold claimHasRequired has_undelegate_arg DELEGATOR_ARG_KEY VALIDATOR_ARG_KEY ARG_AMOUNT
  simp [Bool.and_assoc]

lemma claim_required_redelegate (item : ExecutableDeployItem) :
    claimHasRequired item ["delegator", "validator", "new_validator", "amount"] =
      has_redelegate_arg item := by
  unfold claimHasRequired has_redelegate_arg DELEGATOR_ARG_KEY VALIDATOR_ARG_KEY
    NEW_VALIDATOR_ARG_KEY ARG_AMOUNT
  simp [Bool.and_assoc]

lemma is_delegate_eq_spec (item : ExecutableDeployItem) (b : Bool)
    (h : is_delegate item = .ok b) : b = spec_is_delegate item := by
  unfold spec_is_delegate
  rw [claim_required_delegate]
  cases item with
  | moduleBytes mb args =>
    cases hga : args.get "auction" with
    | none =>
      simp [is_delegate, is_entrypoint, has_delegate_auction_arg, get_auction_arg, hga] at h
      simp [claimEntrySignal, claimAuctionSignal, itemEntryPointName, hga, h]
    | some cl =>
      cases hs : cl.asString with
      | none =>
        simp [is_delegate, is_entrypoint, has_delegate_auction_arg, get_auction_arg, hga, hs] at h
      | some s =>
        simp [is_delegate, is_entrypoint, has_delegate_auction_arg, get_auction_arg, hga, hs,
          Option.filter, DELEGATE_ENTRYPOINT] at h
        by_cases hlow : str_to_lowercase s = "delegate" <;>
          simp_all [claimEntrySignal, claimAuctionSignal, itemEntryPointName]
  | transfer args =>
    simp [is_delegate, is_entrypoint, has_delegate_auction_arg, get_auction_arg] at h
    simp [claimEntrySignal, claimAuctionSignal, itemEntryPointName, h]
  | storedContractByHash hsh ep args =>
    cases hep : ep == "delegate" <;>
      simp [is_delegate, is_entrypoint, has_delegate_auction_arg, get_auction_arg,
        DELEGATE_ENTRYPOINT, hep] at h <;>
      simp_all [claimEntrySignal, claimAuctionSignal, itemEntryPointName, beq_iff_eq,
        beq_eq_false_iff_ne]
  | storedContractByName nm ep args =>
    cases hep : ep == "delegate" <;>
      simp [is_delegate, is_entrypoint, has_delegate_auction_arg, get_auction_arg,
        DELEGATE_ENTRYPOINT, hep] at h <;>
      simp_all [claimEntrySignal, claimAuctionSignal, itemEntryPointName, beq_iff_eq,
        beq_eq_false_iff_ne]
  | storedVersionedContractByHash hsh ver ep args =>
    cases hep : ep == "delegate" <;>
      simp [is_delegate, is_entrypoint, has_delegate_auction_arg, get_auction_arg,
        DELEGATE_ENTRYPOINT, hep] at h <;>
      simp_all [claimEntrySignal, claimAuctionSignal, itemEntryPointName, beq_iff_eq,
        beq_eq_false_iff_ne]
  | storedVersionedContractByName nm ver ep args =>
    cases hep : ep == "delegate" <;>
      simp [is_delegate, is_entrypoint, has_delegate_auction_arg, get_auction_arg,
        DELEGATE_ENTRYPOINT, hep] at h <;>
      simp_all [claimEntrySignal, claimAuctionSignal, itemEntryPointName, beq_iff_eq,
        beq_eq_false_iff_ne]

lemma is_undelegate_eq_spec (item : ExecutableDeployItem) (b : Bool)
    (h : is_undelegate item = .ok b) : b = spec_is_undelegate item := by
  unfold spec_is_undelegate
  rw [claim_required_undelegate]
  cases item with
  | moduleBytes mb args =>
    cases hga : args.get "auction" with
    | none =>
      simp [is_undelegate, is_entrypoint, has_undelegate_auction_arg, get_auction_arg, hga] at h
      simp [claimEntrySignal, claimAuctionSignal, itemEntryPointName, hga, h]
    | some cl =>
      cases hs : cl.asString with
      | none =>
        simp [is_undelegate, is_entrypoint, has_undelegate_auction_arg, get_auction_arg, hga,
          hs] at h
      | some s =>
        simp [is_undelegate, is_entrypoint, has_undelegate_auction_arg, get_auction_arg, hga, hs,
          Option.filter, UNDELEGATE_ENTRYPOINT] at h
        by_cases hlow : str_to_lowercase s = "undelegate" <;>
          simp_all [claimEntrySignal, claimAuctionSignal, itemEntryPointName]
  | transfer args =>
    simp [is_undelegate, is_entrypoint, has_undelegate_auction_arg, get_auction_arg] at h
    simp [claimEntrySignal, claimAuctionSignal, itemEntryPointName, h]
  | storedContractByHash hsh ep args =>
    cases hep : ep == "undelegate" <;>
      simp [is_undelegate, is_entrypoint, has_undelegate_auction_arg, get_auction_arg,
        UNDELEGATE_ENTRYPOINT, hep] at h <;>
      simp_all [claimEntrySignal, claimAuctionSignal, itemEntryPointName, beq_iff_eq,
        beq_eq_false_iff_ne]
  | storedContractByName nm ep args =>
    cases hep : ep == "undelegate" <;>
      simp [is_undelegate, is_entrypoint, has_undelegate_auction_arg, get_auction_arg,
        UNDELEGATE_ENTRYPOINT, hep] at h <;>
      simp_all [claimEntrySignal, claimAuctionSignal, itemEntryPointName, beq_iff_eq,
        beq_eq_false_iff_ne]
  | storedVersionedContractByHash hsh ver ep args =>
    cases hep : ep == "undelegate" <;>
      simp [is_undelegate, is_entrypoint, has_undelegate_auction_arg, get_auction_arg,
        UNDELEGATE_ENTRYPOINT, hep] at h <;>
      simp_all [claimEntrySignal, claimAuctionSignal, itemEntryPointName, beq_iff_eq,
        beq_eq_false_iff_ne]
  | storedVersionedContractByName nm ver ep args =>
    cases hep : ep == "undelegate" <;>
      simp [is_undelegate, is_entrypoint, has_undelegate_auction_arg, get_auction_arg,
        UNDELEGATE_ENTRYPOINT, hep] at h <;>
      simp_all [claimEntrySignal, claimAuctionSignal, itemEntryPointName, beq_iff_eq,
        beq_eq_false_iff_ne]

lemma is_redelegate_eq_spec (item : ExecutableDeployItem) (b : Bool)
    (h : is_redelegate item = .ok b) : b = spec_is_redelegate item := by
  unfold spec_is_redelegate
  rw [claim_required_redelegate]
  cases item with
  | moduleBytes mb args =>
    cases hga : args.get "auction" with
    | none =>
      simp [is_redelegate, is_entrypoint, has_redelegate_auction_arg, get_auction_arg, hga] at h
      simp [claimEntrySignal, claimAuctionSignal, itemEntryPointName, hga, h]
    | some cl =>
      cases hs : cl.asString with
      | none =>
        simp [is_redelegate, is_entrypoint, has_redelegate_auction_arg, get_auction_arg, hga,
          hs] at h
      | some s =>
        simp [is_redelegate, is_entrypoint, has_redelegate_auction_arg, get_auction_arg, hga, hs,
          Option.filter, REDELEGATE_ENTRYPOINT] at h
        by_cases hlow : str_to_lowercase s = "redelegate" <;>
          simp_all [claimEntrySignal, claimAuctionSignal, itemEntryPointName]
  | transfer args =>
    simp [is_redelegate, is_entrypoint, has_redelegate_auction_arg, get_auction_arg] at h
    simp [claimEntrySignal, claimAuctionSignal, itemEntryPointName, h]
  | storedContractByHash hsh ep args =>
    cases hep : ep == "redelegate" <;>
      simp [is_redelegate, is_entrypoint, has_redelegate_auction_arg, get_auction_arg,
        REDELEGATE_ENTRYPOINT, hep] at h <;>
      simp_all [claimEntrySignal, claimAuctionSignal, itemEntryPointName, beq_iff_eq,
        beq_eq_false_iff_ne]
  | storedContractByName nm ep args =>
    cases hep : ep == "redelegate" <;>
      simp [is_redelegate, is_entrypoint, has_redelegate_auction_arg, get_auction_arg,
        REDELEGATE_ENTRYPOINT, hep] at h <;>
      simp_all [claimEntrySignal, claimAuctionSignal, itemEntryPointName, beq_iff_eq,
        beq_eq_false_iff_ne]
  | storedVersionedContractByHash hsh ver ep args =>
    cases hep : ep == "redelegate" <;>
      simp [is_redelegate, is_entrypoint, has_redelegate_auction_arg, get_auction_arg,
        REDELEGATE_ENTRYPOINT, hep] at h <;>
      simp_all [claimEntrySignal, claimAuctionSignal, itemEntryPointName, beq_iff_eq,
        beq_eq_false_iff_ne]
  | storedVersionedContractByName nm ver ep args =>
    cases hep : ep == "redelegate" <;>
      simp [is_redelegate, is_entrypoint, has_redelegate_auction_arg, get_auction_arg,
        REDELEGATE_ENTRYPOINT, hep] at h <;>
      simp_all [claimEntrySignal, claimAuctionSignal, itemEntryPointName, beq_iff_eq,
        beq_eq_false_iff_ne]

/-- C4 (confirmed): an executable item is classified as delegate, undelegate
or redelegate exactly when one of the two signals (literal entry-point name,
or case-insensitive `auction` string argument on a module-bytes item) holds
AND all of the operation's required argument names are present; in
particular, a stored-contract-by-hash call with entry point `delegate` but no
`amount` argument falls through to the generic contract-execution fields. -/
theorem c4_delegation_classifier (item : ExecutableDeployItem) (digestHash : List Nat → String)
    (hsh : String) (args2 : Args) (phase : TxnPhase) (b1 b2 b3 : Bool)
    (h1 : is_delegate item = .ok b1) (h2 : is_undelegate item = .ok b2)
    (h3 : is_redelegate item = .ok b3) (hamt : args2.get ARG_AMOUNT = none) :
    b1 = spec_is_delegate item ∧ b2 = spec_is_undelegate item ∧ b3 = spec_is_redelegate item ∧
      parse_phase digestHash (.storedContractByHash hsh "delegate" args2) phase =
        .ok (deploy_type digestHash phase (.storedContractByHash hsh "delegate" args2)
          ++ [entrypoint "delegate"] ++ parse_runtime_args (remove_amount_arg args2)) := by
  refine ⟨is_delegate_eq_spec item b1 h1, is_undelegate_eq_spec item b2 h2,
    is_redelegate_eq_spec item b3 h3, ?_⟩
  have hamt2 : args2.get "amount" = none := hamt
  have hd : is_delegate (.storedContractByHash hsh "delegate" args2) = .ok false := by
    simp [is_delegate, is_entrypoint, has_delegate_args, ExecutableDeployItem.args,
      DELEGATE_ENTRYPOINT, ARG_AMOUNT, hamt2]
  have hu : is_undelegate (.storedContractByHash hsh "delegate" args2) = .ok false := by
    simp [is_undelegate, is_entrypoint, has_undelegate_auction_arg, get_auction_arg,
      has_undelegate_arg, ExecutableDeployItem.args, UNDELEGATE_ENTRYPOINT, ARG_AMOUNT, hamt2]
  have hr : is_redelegate (.storedContractByHash hsh "delegate" args2) = .ok false := by
    simp [is_redelegate, is_entrypoint, has_redelegate_auction_arg, get_auction_arg,
      has_redelegate_arg, ExecutableDeployItem.args, REDELEGATE_ENTRYPOINT, ARG_AMOUNT, hamt2]
  have hpa : parse_amount args2 = .ok none := by
    unfold parse_amount parse_motes
    rw [hamt]
  unfold parse_phase
  rw [hd]
  simp only [exceptBindOkEq, Bool.false_eq_true, if_false]
  rw [hu]
  simp only [exceptBindOkEq, Bool.false_eq_true, if_false]
  rw [hr]
  simp only [exceptBindOkEq, Bool.false_eq_true, if_false]
  simp [hpa]

/-- Witness for C4: a stored-by-hash delegate call with all required
arguments is classified as a delegation, and an argument-less one falls
through to the generic extraction. -/
theorem c4_witness :
    true = spec_is_delegate (.storedContractByHash "cafe" "delegate"
        [("amount", CLV.mk none "1"), ("delegator", CLV.mk none "d"),
          ("validator", CLV.mk none "v")]) ∧
      false = spec_is_undelegate (.storedContractByHash "cafe" "delegate"
        [("amount", CLV.mk none "1"), ("delegator", CLV.mk none "d"),
          ("validator", CLV.mk none "v")]) ∧
      false = spec_is_redelegate (.storedContractByHash "cafe" "delegate"
        [("amount", CLV.mk none "1"), ("delegator", CLV.mk none "d"),
          ("validator", CLV.mk none "v")]) ∧
      parse_phase (fun _ => "") (.storedContractByHash "ff" "delegate" []) .session =
        .ok (deploy_type (fun _ => "") .session (.storedContractByHash "ff" "delegate" [])
          ++ [entrypoint "delegate"] ++ parse_runtime_args (remove_amount_arg [])) :=
  c4_delegation_classifier
    (.storedContractByHash "cafe" "delegate"
      [("amount", CLV.mk none "1"), ("delegator", CLV.mk none "d"),
        ("validator", CLV.mk none "v")])
    (fun _ => "") "ff" [] .session true false false (by decide) (by decide) (by decide)
    (by decide)

lemma parse_optional_arg_eq_map (args : Args) (key label : String) (expert : Bool)
    (f : String → String) :
    parse_optional_arg args key label expert f =
      (args.get key).map fun cl =>
        if expert then Element.mkExpert label (f cl.display)
        else Element.mkRegular label (f cl.display) := by
  unfold parse_optional_arg
  cases args.get key <;> rfl

lemma remove_transfer_args_eq (args : Args) :
    remove_transfer_args args =
      args.filter fun kv => !(reservedTransferNames.contains kv.1) := by
  unfold remove_transfer_args Args.removeKey reservedTransferNames ARG_TO ARG_SOURCE ARG_TARGET
    ARG_AMOUNT ARG_ID
  rw [List.filter_filter, List.filter_filter, List.filter_filter, List.filter_filter]
  apply List.filter_congr
  intro kv _
  cases h1 : kv.1 == "to" <;> cases h2 : kv.1 == "source" <;> cases h3 : kv.1 == "target" <;>
    cases h4 : kv.1 == "amount" <;> cases h5 : kv.1 == "id" <;>
    simp_all [beq_iff_eq, beq_eq_false_iff_ne]

/-- C8 (confirmed, spec-modelled amount): for every native-transfer item whose
`target` argument is present and whose `amount` argument carries a valid
decimal, the emitted fields are exactly: optional recipient (`to`, Regular),
optional source (Expert), target (Regular), the grouped-motes amount
(Regular), optional id (Expert), then the leftover arguments — the five
reserved names removed — as paired Expert fields. -/
theorem c8_transfer_field_order (digestHash : List Nat → String) (args : Args)
    (phase : TxnPhase) (amt : CLV) (n : Nat)
    (htgt : (args.get ARG_TARGET).isSome = true)
    (hamt : args.get ARG_AMOUNT = some amt)
    (hdec : from_dec_str amt.display = some n) :
    parse_phase digestHash (.transfer args) phase = .ok (spec_transfer_fields args n) := by
  rw [parse_phase_transfer]
  have hta : parse_transfer_args args =
      .ok ((parse_optional_arg args ARG_TO "recipient" false identity).toList
        ++ (parse_optional_arg args ARG_SOURCE "from" true identity).toList
        ++ (parse_optional_arg args ARG_TARGET "target" false identity).toList
        ++ [Element.mkRegular "amount" (format_amount n)]
        ++ (parse_optional_arg args ARG_ID "ID" true identity).toList) := by
    unfold parse_transfer_args parse_transfer_amount
    simp [hamt, hdec, List.append_assoc]
  rw [hta]
  simp only [exceptBindOkEq]
  unfold spec_transfer_fields
  rw [remove_transfer_args_eq]
  unfold parse_runtime_args format_amount
  simp [parse_optional_arg_eq_map, identity, ARG_TO, ARG_SOURCE, ARG_TARGET, ARG_ID,
    List.append_assoc]

/-- Witness for C8 at a concrete transfer argument set. -/
theorem c8_witness :
    parse_phase (fun _ => "")
        (.transfer [("amount", CLV.mk none "24500000000"), ("target", CLV.mk none "0101"),
          ("id", CLV.mk none "999")]) .session =
      .ok (spec_transfer_fields
        [("amount", CLV.mk none "24500000000"), ("target", CLV.mk none "0101"),
          ("id", CLV.mk none "999")] 24500000000) :=
  c8_transfer_field_order (fun _ => "")
    [("amount", CLV.mk none "24500000000"), ("target", CLV.mk none "0101"),
      ("id", CLV.mk none "999")]
    .session (CLV.mk none "24500000000") 24500000000 (by decide) (by decide)
    (by set_option maxRecDepth 8192 in exact rfl)

end DeployGen
